import Mathlib

/-!
Verification of the natural-language specification of this repository
against a shallow Lean embedding of its two source files:

* `CI/batch/submit-job.py` — a CI job-submission utility: job-type
  registry, job-name sanitization, a polling loop streaming logs and
  deducing the process exit code.
* `multimodal/src/autogluon/multimodal/models/categorical_mlp.py` —
  the `CategoricalMLP` module: per-column embedding widths, the
  optional classification head, and the forward pass.

Every definition is translated from the source code; definitions whose
name starts with `spec` restate a formula in the words of the
specification, to be compared with the source-derived one.
-/

namespace SubmitJob

/-! ## Job-type registry (`job_type_info`, submit-job.py lines 13–46)

Each entry is `(job type key, job_definition, job_queue)`, in the order
of the Python dict literal. -/

def job_type_info : List (String × String × String) :=
  [ ("CI-CPU", "autogluon-ci-cpu:3", "CI-CPU"),
    ("CI-GPU", "autogluon-ci-gpu:3", "CI-GPU"),
    ("CI-WASM", "autogluon-ci-wasm:1", "CI-CPU"),
    ("CI-MULTI-GPU", "autogluon-ci-multi-gpu:6", "CI-MULTI-GPU"),
    ("CI-CPU-PUSH", "autogluon-ci-cpu-push:3", "CI-CPU"),
    ("CI-GPU-PUSH", "autogluon-ci-gpu-push:4", "CI-GPU"),
    ("CI-WASM-PUSH", "autogluon-ci-wasm-push:2", "CI-CPU"),
    ("CI-MULTI-GPU-PUSH", "autogluon-ci-multi-gpu-push:2", "CI-MULTI-GPU") ]

/-- Dictionary lookup `job_type_info[jobType]`, yielding the
`(job_definition, job_queue)` pair (submit-job.py lines 128–129). -/
def lookupJobType (k : String) : Option (String × String) :=
  (job_type_info.find? (fun e => e.1 == k)).map (fun e => (e.2.1, e.2.2))

/-! ## Job-name sanitization (submit-job.py line 126)

`re.sub('[^A-Za-z0-9_\\-]', '', args.name)[:128]`: drop every character
outside `[A-Za-z0-9_-]`, then keep the first 128 characters. -/

/-- A character matched by the regex class `[A-Za-z0-9_\-]`. -/
def allowedChar (c : Char) : Bool :=
  ('A' ≤ c && c ≤ 'Z') || ('a' ≤ c && c ≤ 'z') || ('0' ≤ c && c ≤ '9')
    || c == '_' || c == '-'

/-- `re.sub('[^A-Za-z0-9_\\-]', '', name)[:128]` on the character list of
the input string. -/
def sanitizeJobName (name : List Char) : List Char :=
  (name.filter allowedChar).take 128

/-! ## Log fetching (`printLogs`, submit-job.py lines 94–114)

The external log service is modelled by the trace of responses it hands
to successive `get_log_events` calls. -/

/-- One `get_log_events` response: the events' timestamps (milliseconds
since the epoch; the message text plays no role in any claim) and the
returned `nextForwardToken`, with `none` standing for a falsy token. -/
structure LogPage where
  events : List Int
  nextForwardToken : Option String
deriving DecidableEq

/-- The `while True` sub-loop of `printLogs` (lines 101–113). `pages`
is the trace of responses the service returns to successive calls,
`tok` the `nextToken` currently stored in `kwargs` (`none` before the
first page), `lastTimestamp` the running variable initialised on
line 100. Yields the final `lastTimestamp`, the list of
`(token sent with the request, token returned)` pairs, and whether the
`break` was reached inside the trace (`false`: trace exhausted first).
The `for` loop over events leaves `lastTimestamp` at the last event's
timestamp, or unchanged when the page is empty. -/
def printLogsGo : List LogPage → Option String → Int →
    Int × List (Option String × Option String) × Bool
  | [], _, lastTimestamp => (lastTimestamp, [], false)
  | page :: rest, tok, lastTimestamp =>
      let last := page.events.foldl (fun _ t => t) lastTimestamp
      match page.nextForwardToken with
      | none => (last, [(tok, none)], true)
      | some nt =>
          if tok = some nt then (last, [(tok, some nt)], true)
          else
            let r := printLogsGo rest (some nt) last
            (r.1, (tok, some nt) :: r.2.1, r.2.2)

/-- `printLogs(logGroupName, logStreamName, startTime)` reduced to what
the claims need: the `lastTimestamp` it returns. -/
def printLogs (pages : List LogPage) (startTime : Int) : Int :=
  (printLogsGo pages none (startTime - 1)).1

/-! ## Polling loop (`main`, submit-job.py lines 158–187) -/

/-- One iteration's view of `describe_jobs`: the job status, the
container's log stream name, and the trace of log pages the service
would return to a `printLogs` call made this iteration. -/
structure JobObservation where
  status : String
  logStreamName : Option String
  logPages : List LogPage
deriving DecidableEq

/-- A line printed by the loop body (individual log lines are accounted
for inside `printLogs` and are not repeated here). -/
inductive MainEvent where
  | statusUpdate (status : String)
  | runningBanner (logStreamName : Option String)
  | terminalSummary (status : String)
deriving DecidableEq

/-- The mutable state of the polling loop: `running`, `status_set`
(lines 159–162), `startTime`, `logStreamName`, and the `spinner`
counter. -/
structure LoopState where
  running : Bool
  statusSet : List String
  startTime : Int
  logStreamName : Option String
  spinner : Nat
deriving DecidableEq

/-- The loop state on entry: `spinner = 0`, `running = False`,
`status_set = set()`, `startTime = 0`, `logStreamName = None`. -/
def initState : LoopState := ⟨false, [], 0, none, 0⟩

/-- One iteration of `while wait` (lines 163–187): the events printed,
and either the state for the next iteration (`Sum.inl`) or the code
passed to `sys.exit` (`Sum.inr`; Python maps `sys.exit(True)` to exit
code 1 and `sys.exit(False)` to 0). On a terminal status the code also
flushes remaining log lines through `printLogs` before exiting when a
stream is known (line 169); that call only prints and updates a
variable the process never reads again, so it is not recorded here. -/
def pollStep (obs : JobObservation) (st : LoopState) :
    List MainEvent × (LoopState ⊕ Nat) :=
  if obs.status = "SUCCEEDED" ∨ obs.status = "FAILED" then
    ([MainEvent.terminalSummary obs.status],
      Sum.inr (if obs.status = "FAILED" then 1 else 0))
  else if obs.status = "RUNNING" then
    let evs := if st.running then []
      else [MainEvent.runningBanner obs.logStreamName]
    let st2 := { st with running := true, logStreamName := obs.logStreamName }
    match obs.logStreamName with
    | some _ =>
        (evs, Sum.inl
          { st2 with startTime := printLogs obs.logPages st.startTime + 1 })
    | none => (evs, Sum.inl st2)
  else if obs.status ∈ st.statusSet then ([], Sum.inl st)
  else ([MainEvent.statusUpdate obs.status],
    Sum.inl { st with statusSet := (obs.status :: st.statusSet),
                      spinner := st.spinner + 1 })

/-- The polling loop run against a trace of observations: the events it
prints and, when `sys.exit` is reached inside the trace, the exit
code. -/
def runLoop : List JobObservation → LoopState → List MainEvent × Option Nat
  | [], _ => ([], none)
  | obs :: rest, st =>
      let p := pollStep obs st
      match p.2 with
      | Sum.inr code => (p.1, some code)
      | Sum.inl st' =>
          let r := runLoop rest st'
          (p.1 ++ r.1, r.2)

/-- The process exit code of `main`: when `--wait` is absent the loop
never runs and `main` returns normally (exit code 0); otherwise the
code produced by the loop, or `none` when the trace ends before a
terminal status (the real loop would still be polling). -/
def mainExitCode (wait : Bool) (trace : List JobObservation) : Option Nat :=
  if wait then (runLoop trace initState).2 else some 0

/-- The status of the first `SUCCEEDED`/`FAILED` observation in a
trace. -/
def firstTerminalStatus (trace : List JobObservation) : Option String :=
  (trace.find? (fun o => o.status == "SUCCEEDED" || o.status == "FAILED")).map
    (fun o => o.status)

/-- The statuses carried by the one-line status updates among printed
events. -/
def updateStatuses (evs : List MainEvent) : List String :=
  evs.filterMap (fun e => match e with
    | MainEvent.statusUpdate s => some s
    | _ => none)

end SubmitJob

namespace CategoricalMLP

/-! ## CategoricalMLP (categorical_mlp.py)

Tensors are modelled one sample at a time: a row vector is a `List ℚ`
(the float entries as rationals), a weight matrix a `List (List ℚ)`.
The per-column MLPs and the aggregator MLP come from `mlp.py`, which is
outside the two source files; since none of the claims depends on their
internals, they appear as abstract functions `List ℚ → List ℚ` held by
the model, exactly as `__init__` stores them in `ModuleList`s. -/

/-- Lines 63–65 of `__init__`: the per-column embedding width
`int(size_factor * max(2, min(max_embedding_dim, 1.6 * c ** embed_exponent)))`
with `size_factor = 1.0`, `max_embedding_dim = 100` and
`embed_exponent = 0.56`. The clamped value lies in `[2, 100]`, so
Python's `int` (truncation toward zero) is `Int.floor` here; the float
arithmetic is modelled over ℝ. -/
noncomputable def embedding_dim (c : ℕ) : ℤ :=
  ⌊(1.0 : ℝ) * max 2 (min 100 (1.6 * (c : ℝ) ^ (0.56 : ℝ)))⌋

/-- The claim's formula in the spec's words:
`round(size_factor * clamp(1.6 * cardinality^0.56, min=2, max=100))`
with `size_factor = 1.0`, to be compared with `embedding_dim`. -/
noncomputable def specRoundWidth (c : ℕ) : ℤ :=
  round ((1.0 : ℝ) * max 2 (min 100 (1.6 * (c : ℝ) ^ (0.56 : ℝ))))

/-- The spec formula amended to what the code does: truncation (floor)
of `size_factor * clamp(1.6 * cardinality^0.56, min=2, max=100)` in
place of rounding. -/
noncomputable def specTruncWidth (c : ℕ) : ℤ :=
  ⌊(1.0 : ℝ) * max 2 (min 100 (1.6 * (c : ℝ) ^ (0.56 : ℝ)))⌋

/-- Dot product of a weight row with an input vector. -/
def dotProduct (w x : List ℚ) : ℚ :=
  (List.zip w x).foldl (fun acc p => acc + p.1 * p.2) 0

/-- The classification head selected on line 95: either `nn.Identity()`
or `nn.Linear(out_features, num_classes)` with its weight matrix (one
row per output class) and bias vector. -/
inductive Head where
  | identity : Head
  | linear (weight : List (List ℚ)) (bias : List ℚ) : Head

/-- `nn.Identity`/`nn.Linear` applied to a single sample:
`y_i = w_i · x + b_i`. -/
def Head.apply : Head → List ℚ → List ℚ
  | .identity, x => x
  | .linear w b, x => (List.zip w b).map (fun wb => dotProduct wb.1 x + wb.2)

/-- Line 95 of `__init__`:
`self.head = nn.Linear(out_features, num_classes) if num_classes > 0 else nn.Identity()`.
`weight` and `bias` stand for the parameters the linear layer carries
when it is built. -/
def mkHead (numClasses : Int) (weight : List (List ℚ)) (bias : List ℚ) : Head :=
  if 0 < numClasses then .linear weight bias else .identity

/-- The state a constructed `CategoricalMLP` carries into `forward`:
`column_embeddings` (each a lookup from a category index to the
embedding row), `column_mlps`, `aggregator_mlp`, and `head`. -/
structure Model where
  columnEmbeddings : List (Int → List ℚ)
  columnMlps : List (List ℚ → List ℚ)
  aggregatorMlp : List ℚ → List ℚ
  head : Head

/-- `CategoricalMLP.forward` (lines 132–144) on one sample. `batch` is
the sequence of per-column category indices found at
`batch[self.categorical_key]`. The `assert` on line 132 is modelled by
returning `none` when the length test fails; otherwise the result is
the returned dictionary `{LOGITS: logits, FEATURES: features}`,
modelled as the pair `(logits, features)`. -/
def forward (m : Model) (batch : List Int) : Option (List ℚ × List ℚ) :=
  if batch.length = m.columnEmbeddings.length then
    let feats := (List.zip (List.zip batch m.columnEmbeddings) m.columnMlps).map
      (fun x => x.2 (x.1.2 x.1.1))
    let features := m.aggregatorMlp feats.flatten
    some (m.head.apply features, features)
  else
    none

/-- The identity function, standing for a concrete per-column or
aggregator MLP in witness computations. -/
def idMlp : List ℚ → List ℚ := fun x => x

/-- A concrete embedding lookup used in witness computations. -/
def constEmbed : Int → List ℚ := fun i => [(i : ℚ)]

/-- A one-column model whose head was built with class count 0. -/
def demoIdentityModel : Model := ⟨[constEmbed], [idMlp], idMlp, mkHead 0 [] []⟩

/-- A one-column model whose head was built with class count 2. -/
def demoLinearModel : Model :=
  ⟨[constEmbed], [idMlp], idMlp, mkHead 2 [[1], [0]] [0, 0]⟩

/-- A one-column model whose head was built with class count -1. -/
def demoNegModel : Model := ⟨[constEmbed], [idMlp], idMlp, mkHead (-1) [] []⟩

end CategoricalMLP

namespace SubmitJob

/-- C2: for every input string given as the job name, the sanitized job
name contains only characters from `[A-Za-z0-9_-]` and has length at
most 128. -/
theorem sanitizeJobName_chars_allowed_and_short (name : List Char) :
    (∀ c ∈ sanitizeJobName name, allowedChar c = true) ∧
      (sanitizeJobName name).length ≤ 128 := by
  constructor
  · intro c hc
    have hc' : c ∈ name.filter allowedChar := List.mem_of_mem_take hc
    exact (List.mem_filter.mp hc').2
  · calc (sanitizeJobName name).length
        = min 128 (name.filter allowedChar).length := List.length_take _ _
      _ ≤ 128 := min_le_left _ _

/-- C6: the job-type lookup is total over the closed registry of exactly
8 job types and yields, for each key, the `(job definition, job queue)`
pair recorded in the static table; the registry is a fixed list with
pairwise-distinct keys (a Lean `def`, hence immutable by construction). -/
theorem lookupJobType_total_and_correct :
    job_type_info.length = 8 ∧
    (job_type_info.map (fun e => e.1)).Nodup ∧
    lookupJobType "CI-CPU" = some ("autogluon-ci-cpu:3", "CI-CPU") ∧
    lookupJobType "CI-GPU" = some ("autogluon-ci-gpu:3", "CI-GPU") ∧
    lookupJobType "CI-WASM" = some ("autogluon-ci-wasm:1", "CI-CPU") ∧
    lookupJobType "CI-MULTI-GPU" = some ("autogluon-ci-multi-gpu:6", "CI-MULTI-GPU") ∧
    lookupJobType "CI-CPU-PUSH" = some ("autogluon-ci-cpu-push:3", "CI-CPU") ∧
    lookupJobType "CI-GPU-PUSH" = some ("autogluon-ci-gpu-push:4", "CI-GPU") ∧
    lookupJobType "CI-WASM-PUSH" = some ("autogluon-ci-wasm-push:2", "CI-CPU") ∧
    lookupJobType "CI-MULTI-GPU-PUSH" = some ("autogluon-ci-multi-gpu-push:2", "CI-MULTI-GPU") := by
  refine ⟨rfl, ?_, rfl, rfl, rfl, rfl, rfl, rfl, rfl, rfl⟩
  decide

end SubmitJob

namespace CategoricalMLP

/-- In a successful forward pass the returned logits are the head
applied to the returned features (line 138). -/
theorem forward_logits_eq_head_apply {m : Model} {batch : List Int}
    {l f : List ℚ} (h : forward m batch = some (l, f)) :
    l = Head.apply m.head f := by
  by_cases hc : batch.length = m.columnEmbeddings.length
  · simp only [forward, hc, if_true, Option.some.injEq, Prod.mk.injEq] at h
    rw [← h.1, ← h.2]
  · simp [forward, hc] at h

/-- C5: the forward pass fails (the `assert` on line 132 fires) exactly
when the number of supplied per-column index tensors differs from the
number of columns configured at construction; when they agree the pass
returns a result, performing no other validation. -/
theorem forward_isSome_iff_length_eq (m : Model) (batch : List Int) :
    (forward m batch).isSome = true ↔
      batch.length = m.columnEmbeddings.length := by
  by_cases hc : batch.length = m.columnEmbeddings.length <;> simp [forward, hc]

/-- C3: with class count 0 the head built on line 95 is the identity and
the returned logits equal the returned features; with class count > 0
the head is the linear projection and the logits have exactly
class-count entries. -/
theorem head_zero_identity_positive_projection :
    (∀ (m : Model) (w : List (List ℚ)) (b : List ℚ) (batch : List Int)
        (l f : List ℚ), m.head = mkHead 0 w b →
        forward m batch = some (l, f) →
        m.head = Head.identity ∧ l = f) ∧
    (∀ (m : Model) (w : List (List ℚ)) (b : List ℚ) (nc : Int)
        (batch : List Int) (l f : List ℚ), m.head = mkHead nc w b →
        0 < nc → w.length = nc.toNat → b.length = nc.toNat →
        forward m batch = some (l, f) →
        m.head = Head.linear w b ∧ l.length = nc.toNat) := by
  constructor
  · intro m w b batch l f hhead hfwd
    have hid : m.head = Head.identity := by
      rw [hhead, mkHead, if_neg (by norm_num)]
    refine ⟨hid, ?_⟩
    have := forward_logits_eq_head_apply hfwd
    rw [hid] at this
    simpa [Head.apply] using this
  · intro m w b nc batch l f hhead hnc hw hb hfwd
    have hlin : m.head = Head.linear w b := by
      rw [hhead, mkHead, if_pos hnc]
    refine ⟨hlin, ?_⟩
    have := forward_logits_eq_head_apply hfwd
    rw [hlin] at this
    rw [this]
    simp [Head.apply, List.length_zip, hw, hb]

/-- C10: the identity head is not limited to class count exactly 0 —
for every class count ≤ 0 (negatives included) line 95 builds
`nn.Identity()`, so the returned logits equal the returned features. -/
theorem head_nonpositive_identity (m : Model) (w : List (List ℚ))
    (b : List ℚ) (nc : Int) (batch : List Int) (l f : List ℚ)
    (hnc : nc ≤ 0) (hhead : m.head = mkHead nc w b)
    (hfwd : forward m batch = some (l, f)) :
    m.head = Head.identity ∧ l = f := by
  have hid : m.head = Head.identity := by
    rw [hhead, mkHead, if_neg (not_lt.mpr hnc)]
  refine ⟨hid, ?_⟩
  have := forward_logits_eq_head_apply hfwd
  rw [hid] at this
  simpa [Head.apply] using this

/-- Witness for C3 at concrete models: class count 0 on input `[7]`,
and class count 2 with weight `[[1],[0]]`, bias `[0,0]` on input `[7]`. -/
theorem head_zero_identity_positive_projection_witness :
    (demoIdentityModel.head = Head.identity ∧ [(7 : ℚ)] = [(7 : ℚ)]) ∧
    (demoLinearModel.head = Head.linear [[1], [0]] [0, 0] ∧
      ([(7 : ℚ), 0]).length = (2 : Int).toNat) :=
  ⟨head_zero_identity_positive_projection.1 demoIdentityModel [] [] [7]
      [(7 : ℚ)] [(7 : ℚ)] (by rfl)
      (by norm_num [forward, demoIdentityModel, mkHead, Head.apply,
        constEmbed, idMlp, List.flatten]),
   head_zero_identity_positive_projection.2 demoLinearModel [[1], [0]]
      [0, 0] 2 [7] [(7 : ℚ), 0] [(7 : ℚ)] (by rfl) (by norm_num) rfl rfl
      (by norm_num [forward, demoLinearModel, mkHead, Head.apply,
        dotProduct, constEmbed, idMlp, List.flatten])⟩

/-- Witness for C10 at class count -1 on input `[7]`. -/
theorem head_nonpositive_identity_witness :
    demoNegModel.head = Head.identity ∧ [(7 : ℚ)] = [(7 : ℚ)] :=
  head_nonpositive_identity demoNegModel [] [] (-1) [7] [(7 : ℚ)]
    [(7 : ℚ)] (by norm_num) (by rfl)
    (by norm_num [forward, demoNegModel, mkHead, Head.apply,
      constEmbed, idMlp, List.flatten])

end CategoricalMLP

namespace SubmitJob

/-- The `for` loop over a page's events overwrites `lastTimestamp` with
each event's timestamp in turn; any lower bound holding for the initial
value and for every event also holds for the final value. -/
theorem foldl_last_lower (events : List Int) (init B : Int)
    (hinit : B ≤ init) (h : ∀ t ∈ events, B ≤ t) :
    B ≤ events.foldl (fun _ t => t) init := by
  induction events generalizing init with
  | nil => exact hinit
  | cons e es ih =>
      exact ih e (h e (List.mem_cons_self e es))
        (fun t ht => h t (List.mem_cons_of_mem e ht))

/-- Any lower bound on the initial `lastTimestamp` and on every event
timestamp in the trace survives the whole `printLogs` sub-loop. -/
theorem printLogsGo_fst_lower (pages : List LogPage) :
    ∀ (tok : Option String) (init B : Int), B ≤ init →
      (∀ p ∈ pages, ∀ t ∈ p.events, B ≤ t) →
      B ≤ (printLogsGo pages tok init).1 := by
  induction pages with
  | nil => intro tok init B hinit _; simpa [printLogsGo] using hinit
  | cons page rest ih =>
      intro tok init B hinit h
      have hlast : B ≤ page.events.foldl (fun _ t => t) init :=
        foldl_last_lower _ _ _ hinit (h page (List.mem_cons_self _ _))
      have hrest : ∀ p ∈ rest, ∀ t ∈ p.events, B ≤ t :=
        fun p hp => h p (List.mem_cons_of_mem _ hp)
      obtain ⟨evs, nt⟩ := page
      cases nt with
      | none => simpa [printLogsGo] using hlast
      | some nt =>
          by_cases htok : tok = some nt
          · simpa [printLogsGo, htok] using hlast
          · simpa [printLogsGo, htok] using ih (some nt) _ B hlast hrest

/-- C7: for a fixed log stream the watermark is monotone: whenever the
service obeys its contract that every returned event has timestamp at
least the requested `startTime`, a `printLogs` call returns a timestamp
no smaller than `startTime - 1`, and the polling loop's updated
watermark (`startTime = printLogs(...) + 1` on line 182, or untouched)
never moves backwards. -/
theorem watermark_monotone (obs : JobObservation) (st st' : LoopState)
    (evs : List MainEvent)
    (h : ∀ p ∈ obs.logPages, ∀ t ∈ p.events, st.startTime ≤ t)
    (hstep : pollStep obs st = (evs, Sum.inl st')) :
    st.startTime - 1 ≤ printLogs obs.logPages st.startTime ∧
      st.startTime ≤ st'.startTime := by
  have hpl : st.startTime - 1 ≤ printLogs obs.logPages st.startTime :=
    printLogsGo_fst_lower _ none _ _ (by omega)
      (fun p hp t ht => by have := h p hp t ht; omega)
  refine ⟨hpl, ?_⟩
  simp only [pollStep] at hstep
  split at hstep
  · exact absurd (congrArg Prod.snd hstep) (by simp)
  · split at hstep
    · split at hstep
      · have hsnd := Sum.inl.inj (congrArg Prod.snd hstep)
        have : st'.startTime = printLogs obs.logPages st.startTime + 1 := by
          rw [← hsnd]
        omega
      · have hsnd := Sum.inl.inj (congrArg Prod.snd hstep)
        have : st'.startTime = st.startTime := by rw [← hsnd]
        omega
    · split at hstep
      · have hsnd := Sum.inl.inj (congrArg Prod.snd hstep)
        have : st'.startTime = st.startTime := by rw [← hsnd]
        omega
      · have hsnd := Sum.inl.inj (congrArg Prod.snd hstep)
        have : st'.startTime = st.startTime := by rw [← hsnd]
        omega

/-- Witness for C7: a RUNNING observation with one log page holding
timestamps 5 and 7 against a state with watermark 3; the step advances
the watermark to 8. -/
theorem watermark_monotone_witness :
    (∀ p ∈ (JobObservation.mk "RUNNING" (some "s")
        [LogPage.mk [5, 7] none]).logPages, ∀ t ∈ p.events,
        (LoopState.mk false [] 3 none 0).startTime ≤ t) ∧
    ((LoopState.mk false [] 3 none 0).startTime - 1 ≤
        printLogs [LogPage.mk [5, 7] none]
          (LoopState.mk false [] 3 none 0).startTime ∧
      (LoopState.mk false [] 3 none 0).startTime ≤
        (LoopState.mk true [] 8 (some "s") 0).startTime) :=
  ⟨by decide,
   watermark_monotone (JobObservation.mk "RUNNING" (some "s")
      [LogPage.mk [5, 7] none]) (LoopState.mk false [] 3 none 0)
      (LoopState.mk true [] 8 (some "s") 0)
      [MainEvent.runningBanner (some "s")] (by decide) (by rfl)⟩

/-- C8: whenever the `printLogs` sub-loop reaches its `break` within
the response trace, every request but the last was answered with a
truthy token different from the token the request carried (and the loop
advanced to the next page), while the final request's answer was falsy
or equal to the token just used: pagination advances exactly while the
token keeps changing and stops as soon as it repeats. -/
theorem token_pagination_stops_on_repeat (pages : List LogPage)
    (tok : Option String) (lastTimestamp : Int)
    (hstop : (printLogsGo pages tok lastTimestamp).2.2 = true) :
    (printLogsGo pages tok lastTimestamp).2.1 ≠ [] ∧
    (∀ p ∈ (printLogsGo pages tok lastTimestamp).2.1.dropLast,
        ∃ t, p.2 = some t ∧ p.1 ≠ some t) ∧
    (∀ q, (printLogsGo pages tok lastTimestamp).2.1.getLast? = some q →
        q.2 = none ∨ q.1 = q.2) := by
  induction pages generalizing tok lastTimestamp with
  | nil => simp [printLogsGo] at hstop
  | cons page rest ih =>
      obtain ⟨evs, nt⟩ := page
      cases nt with
      | none =>
          refine ⟨by simp [printLogsGo], ?_, ?_⟩ <;> simp [printLogsGo]
      | some nt =>
          by_cases htok : tok = some nt
          · refine ⟨by simp [printLogsGo, htok], ?_, ?_⟩ <;>
              simp [printLogsGo, htok]
          · have heq : (printLogsGo (LogPage.mk evs (some nt) :: rest) tok
                lastTimestamp).2.1 = (tok, some nt) ::
                (printLogsGo rest (some nt)
                  (evs.foldl (fun _ t => t) lastTimestamp)).2.1 := by
              simp [printLogsGo, htok]
            have hstop' : (printLogsGo rest (some nt)
                (evs.foldl (fun _ t => t) lastTimestamp)).2.2 = true := by
              simpa [printLogsGo, htok] using hstop
            obtain ⟨hne, hmid, hlast⟩ := ih (some nt) _ hstop'
            obtain ⟨q0, L, hL⟩ := List.exists_cons_of_ne_nil hne
            refine ⟨?_, ?_, ?_⟩
            · rw [heq]; exact List.cons_ne_nil _ _
            · intro p hp
              rw [heq, hL, List.dropLast_cons₂] at hp
              rcases List.mem_cons.mp hp with rfl | hp
              · exact ⟨nt, rfl, htok⟩
              · exact hmid p (by rw [hL]; exact hp)
            · intro q hq
              rw [heq, hL, List.getLast?_cons_cons] at hq
              exact hlast q (by rw [hL]; exact hq)

/-- Witness for C8: a two-page trace whose token goes
`None → "a" → "a"`; the loop advances once and stops when the token
repeats. -/
theorem token_pagination_stops_on_repeat_witness :
    (printLogsGo [LogPage.mk [] (some "a"), LogPage.mk [] (some "a")]
        none 0).2.2 = true ∧
    ((printLogsGo [LogPage.mk [] (some "a"), LogPage.mk [] (some "a")]
        none 0).2.1 ≠ [] ∧
      (∀ p ∈ (printLogsGo [LogPage.mk [] (some "a"),
          LogPage.mk [] (some "a")] none 0).2.1.dropLast,
          ∃ t, p.2 = some t ∧ p.1 ≠ some t) ∧
      (∀ q, (printLogsGo [LogPage.mk [] (some "a"),
          LogPage.mk [] (some "a")] none 0).2.1.getLast? = some q →
          q.2 = none ∨ q.1 = q.2)) :=
  ⟨by rfl,
   token_pagination_stops_on_repeat
      [LogPage.mk [] (some "a"), LogPage.mk [] (some "a")] none 0 (by rfl)⟩

/-- On a terminal status the loop body prints the summary and calls
`sys.exit(status == 'FAILED')` (lines 167–172). -/
theorem pollStep_terminal (obs : JobObservation) (st : LoopState)
    (h1 : obs.status = "SUCCEEDED" ∨ obs.status = "FAILED") :
    pollStep obs st = ([MainEvent.terminalSummary obs.status],
      Sum.inr (if obs.status = "FAILED" then 1 else 0)) := by
  simp [pollStep, h1]

/-- On a RUNNING status the loop body prints the banner at most once
and continues with an unchanged `status_set` (lines 174–182). -/
theorem pollStep_running (obs : JobObservation) (st : LoopState)
    (h1 : ¬(obs.status = "SUCCEEDED" ∨ obs.status = "FAILED"))
    (h2 : obs.status = "RUNNING") :
    ∃ st', pollStep obs st =
      ((if st.running then []
        else [MainEvent.runningBanner obs.logStreamName]), Sum.inl st') ∧
      st'.statusSet = st.statusSet := by
  simp only [pollStep, if_neg h1, if_pos h2]
  cases obs.logStreamName <;> exact ⟨_, rfl, rfl⟩

/-- A non-terminal, non-RUNNING status already in `status_set` prints
nothing and leaves the state unchanged (line 183). -/
theorem pollStep_seen (obs : JobObservation) (st : LoopState)
    (h1 : ¬(obs.status = "SUCCEEDED" ∨ obs.status = "FAILED"))
    (h2 : ¬obs.status = "RUNNING") (h3 : obs.status ∈ st.statusSet) :
    pollStep obs st = ([], Sum.inl st) := by
  simp [pollStep, h1, h2, h3]

/-- A non-terminal, non-RUNNING status seen for the first time is added
to `status_set` and printed once (lines 183–187). -/
theorem pollStep_unseen (obs : JobObservation) (st : LoopState)
    (h1 : ¬(obs.status = "SUCCEEDED" ∨ obs.status = "FAILED"))
    (h2 : ¬obs.status = "RUNNING") (h3 : obs.status ∉ st.statusSet) :
    pollStep obs st = ([MainEvent.statusUpdate obs.status],
      Sum.inl { st with statusSet := (obs.status :: st.statusSet),
                        spinner := st.spinner + 1 }) := by
  simp [pollStep, h1, h2, h3]

/-- Unfolding of `runLoop` when the step exits. -/
theorem runLoop_cons_inr {obs : JobObservation} {st : LoopState}
    {evs : List MainEvent} {code : Nat}
    (h : pollStep obs st = (evs, Sum.inr code))
    (rest : List JobObservation) :
    runLoop (obs :: rest) st = (evs, some code) := by
  simp [runLoop, h]

/-- Unfolding of `runLoop` when the step continues. -/
theorem runLoop_cons_inl {obs : JobObservation} {st : LoopState}
    {evs : List MainEvent} {st' : LoopState}
    (h : pollStep obs st = (evs, Sum.inl st'))
    (rest : List JobObservation) :
    runLoop (obs :: rest) st =
      (evs ++ (runLoop rest st').1, (runLoop rest st').2) := by
  simp [runLoop, h]

/-- A trace whose head is not terminal keeps its first terminal status
in the tail. -/
theorem firstTerminalStatus_cons_of_not_terminal
    {obs : JobObservation} (rest : List JobObservation)
    (h1 : ¬(obs.status = "SUCCEEDED" ∨ obs.status = "FAILED")) :
    firstTerminalStatus (obs :: rest) = firstTerminalStatus rest := by
  have : (obs.status == "SUCCEEDED" || obs.status == "FAILED") = false := by
    push_neg at h1
    simp [h1.1, h1.2]
  simp [firstTerminalStatus, List.find?, this]

/-- The exit code produced inside the loop, related to the first
terminal status of the trace. -/
theorem runLoop_exit_code (trace : List JobObservation) :
    ∀ (st : LoopState) (c : Nat), (runLoop trace st).2 = some c →
      ∃ s, firstTerminalStatus trace = some s ∧
        ((c ≠ 0) ↔ s = "FAILED") ∧ (s = "SUCCEEDED" → c = 0) := by
  induction trace with
  | nil => intro st c hc; simp [runLoop] at hc
  | cons obs rest ih =>
      intro st c hc
      by_cases h1 : obs.status = "SUCCEEDED" ∨ obs.status = "FAILED"
      · rw [runLoop_cons_inr (pollStep_terminal obs st h1) rest] at hc
        refine ⟨obs.status, ?_, ?_, ?_⟩
        · have : (obs.status == "SUCCEEDED" || obs.status == "FAILED")
              = true := by
            rcases h1 with h | h <;> simp [h]
          simp [firstTerminalStatus, List.find?, this]
        · rcases h1 with h | h
          · have hne : obs.status ≠ "FAILED" := by rw [h]; decide
            have hc0 : c = 0 := by
              simpa [if_neg hne] using (Option.some.inj hc).symm
            simp [hc0, hne]
          · have hc1 : c = 1 := by
              simpa [if_pos h] using (Option.some.inj hc).symm
            simp [hc1, h]
        · intro hs
          have hne : obs.status ≠ "FAILED" := by rw [hs]; decide
          simpa [if_neg hne] using (Option.some.inj hc).symm
      · rw [firstTerminalStatus_cons_of_not_terminal rest h1]
        by_cases h2 : obs.status = "RUNNING"
        · obtain ⟨st', hstep, -⟩ := pollStep_running obs st h1 h2
          rw [runLoop_cons_inl hstep rest] at hc
          exact ih st' c hc
        · by_cases h3 : obs.status ∈ st.statusSet
          · rw [runLoop_cons_inl (pollStep_seen obs st h1 h2 h3) rest] at hc
            exact ih st c hc
          · rw [runLoop_cons_inl (pollStep_unseen obs st h1 h2 h3) rest] at hc
            exact ih _ c hc

/-- C4: when not waiting the process exits with code 0; when waiting
and the polling loop reaches a terminal status, the exit code is
nonzero exactly when that (first) terminal status is FAILED, and is 0
when it is SUCCEEDED. -/
theorem exit_code_nonzero_iff_failed (trace : List JobObservation) :
    mainExitCode false trace = some 0 ∧
    (∀ c, mainExitCode true trace = some c →
      ∃ s, firstTerminalStatus trace = some s ∧
        ((c ≠ 0) ↔ s = "FAILED") ∧ (s = "SUCCEEDED" → c = 0)) := by
  refine ⟨by simp [mainExitCode], ?_⟩
  intro c hc
  exact runLoop_exit_code trace initState c
    (by simpa [mainExitCode] using hc)

/-- Witness for C4: the one-observation trace whose status is FAILED
exits with code 1. -/
theorem exit_code_nonzero_iff_failed_witness :
    mainExitCode true [JobObservation.mk "FAILED" none []] = some 1 ∧
    (∃ s, firstTerminalStatus [JobObservation.mk "FAILED" none []]
        = some s ∧ (((1 : Nat) ≠ 0) ↔ s = "FAILED") ∧
        (s = "SUCCEEDED" → (1 : Nat) = 0)) :=
  ⟨by rfl,
   (exit_code_nonzero_iff_failed [JobObservation.mk "FAILED" none []]).2
      1 (by rfl)⟩

/-- Invariant of the polling loop: the status-update lines printed from
any start state are pairwise distinct, avoid the statuses already in
`status_set`, and come from non-RUNNING, non-terminal observations of
the trace. -/
theorem runLoop_updates_invariant (trace : List JobObservation) :
    ∀ st : LoopState,
      (updateStatuses (runLoop trace st).1).Nodup ∧
      (∀ s ∈ updateStatuses (runLoop trace st).1, s ∉ st.statusSet) ∧
      (∀ s ∈ updateStatuses (runLoop trace st).1, ∃ obs ∈ trace,
        obs.status = s ∧ s ≠ "RUNNING" ∧ s ≠ "SUCCEEDED" ∧
          s ≠ "FAILED") := by
  induction trace with
  | nil => intro st; simp [runLoop, updateStatuses]
  | cons obs rest ih =>
      intro st
      by_cases h1 : obs.status = "SUCCEEDED" ∨ obs.status = "FAILED"
      · rw [runLoop_cons_inr (pollStep_terminal obs st h1) rest]
        simp [updateStatuses]
      · by_cases h2 : obs.status = "RUNNING"
        · obtain ⟨st', hstep, hset⟩ := pollStep_running obs st h1 h2
          rw [runLoop_cons_inl hstep rest]
          obtain ⟨ihn, ihs, iho⟩ := ih st'
          have hupd : updateStatuses
              ((if st.running then []
                else [MainEvent.runningBanner obs.logStreamName]) ++
                (runLoop rest st').1)
              = updateStatuses (runLoop rest st').1 := by
            by_cases hr : st.running <;> simp [hr, updateStatuses]
          rw [hupd]
          refine ⟨ihn, fun s hs => hset ▸ ihs s hs, fun s hs => ?_⟩
          obtain ⟨o, ho, hrest⟩ := iho s hs
          exact ⟨o, List.mem_cons_of_mem _ ho, hrest⟩
        · by_cases h3 : obs.status ∈ st.statusSet
          · rw [runLoop_cons_inl (pollStep_seen obs st h1 h2 h3) rest]
            obtain ⟨ihn, ihs, iho⟩ := ih st
            have hupd : updateStatuses ([] ++ (runLoop rest st).1)
                = updateStatuses (runLoop rest st).1 := by
              simp
            rw [hupd]
            refine ⟨ihn, ihs, fun s hs => ?_⟩
            obtain ⟨o, ho, hrest⟩ := iho s hs
            exact ⟨o, List.mem_cons_of_mem _ ho, hrest⟩
          · rw [runLoop_cons_inl (pollStep_unseen obs st h1 h2 h3) rest]
            obtain ⟨ihn, ihs, iho⟩ := ih
              { st with statusSet := (obs.status :: st.statusSet),
                        spinner := st.spinner + 1 }
            have hupd : updateStatuses
                ([MainEvent.statusUpdate obs.status] ++
                  (runLoop rest { st with
                    statusSet := (obs.status :: st.statusSet),
                    spinner := st.spinner + 1 }).1)
                = obs.status :: updateStatuses (runLoop rest { st with
                    statusSet := (obs.status :: st.statusSet),
                    spinner := st.spinner + 1 }).1 := by
              simp [updateStatuses]
            rw [hupd]
            push_neg at h1
            refine ⟨?_, ?_, ?_⟩
            · exact List.nodup_cons.mpr
                ⟨fun hmem => (ihs _ hmem) (List.mem_cons_self _ _), ihn⟩
            · intro s hs
              rcases List.mem_cons.mp hs with rfl | hs
              · exact h3
              · exact fun hmem =>
                  (ihs s hs) (List.mem_cons_of_mem _ hmem)
            · intro s hs
              rcases List.mem_cons.mp hs with rfl | hs
              · exact ⟨obs, List.mem_cons_self _ _, rfl, h2, h1.1, h1.2⟩
              · obtain ⟨o, ho, hrest⟩ := iho s hs
                exact ⟨o, List.mem_cons_of_mem _ ho, hrest⟩

/-- C9: across the entire polling run, a one-line status update is
printed at most once per status string — the printed update statuses
are pairwise distinct — and each printed update comes from a
non-RUNNING, non-terminal observation. -/
theorem status_update_never_repeats (trace : List JobObservation) :
    (updateStatuses (runLoop trace initState).1).Nodup ∧
    (∀ s ∈ updateStatuses (runLoop trace initState).1, ∃ obs ∈ trace,
      obs.status = s ∧ s ≠ "RUNNING" ∧ s ≠ "SUCCEEDED" ∧
        s ≠ "FAILED") :=
  ⟨(runLoop_updates_invariant trace initState).1,
   (runLoop_updates_invariant trace initState).2.2⟩

end SubmitJob

namespace CategoricalMLP

/-- For nonnegative reals, `x ^ 0.56 < y` is equivalent to
`x^14 < y^25`, since `0.56 = 14/25`. -/
theorem rpow_exponent_lt_iff (x y : ℝ) (hx : 0 ≤ x) (hy : 0 ≤ y) :
    x ^ (0.56 : ℝ) < y ↔ x ^ (14 : ℕ) < y ^ (25 : ℕ) := by
  have hkey : (x ^ ((0.56) : ℝ)) ^ (25 : ℕ) = x ^ (14 : ℕ) := by
    rw [← Real.rpow_natCast (x ^ ((0.56) : ℝ)) 25, ← Real.rpow_mul hx,
      ← Real.rpow_natCast x 14]
    norm_num
  constructor
  · intro h
    calc x ^ (14 : ℕ) = (x ^ (0.56 : ℝ)) ^ (25 : ℕ) := hkey.symm
      _ < y ^ (25 : ℕ) :=
          pow_lt_pow_left₀ h (Real.rpow_nonneg hx _) (by norm_num)
  · intro h
    refine lt_of_pow_lt_pow_left₀ 25 hy ?_
    rw [hkey]; exact h

/-- For nonnegative reals, `y < x ^ 0.56` is equivalent to
`y^25 < x^14`, since `0.56 = 14/25`. -/
theorem lt_rpow_exponent_iff (x y : ℝ) (hx : 0 ≤ x) (hy : 0 ≤ y) :
    y < x ^ (0.56 : ℝ) ↔ y ^ (25 : ℕ) < x ^ (14 : ℕ) := by
  have hkey : (x ^ ((0.56) : ℝ)) ^ (25 : ℕ) = x ^ (14 : ℕ) := by
    rw [← Real.rpow_natCast (x ^ ((0.56) : ℝ)) 25, ← Real.rpow_mul hx,
      ← Real.rpow_natCast x 14]
    norm_num
  constructor
  · intro h
    calc y ^ (25 : ℕ) < (x ^ (0.56 : ℝ)) ^ (25 : ℕ) :=
          pow_lt_pow_left₀ h hy (by norm_num)
      _ = x ^ (14 : ℕ) := hkey
  · intro h
    refine lt_of_pow_lt_pow_left₀ 25 (Real.rpow_nonneg hx _) ?_
    rw [hkey]; exact h

/-- C1 counterexample: at cardinality 3 the clamped value
`1.6 * 3^0.56 ≈ 2.96` is truncated by the code's `int` to width 2,
while the claim's `round` gives 3. -/
theorem embedding_dim_three_ne_specRound :
    embedding_dim 3 = 2 ∧ specRoundWidth 3 = 3 ∧
      embedding_dim 3 ≠ specRoundWidth 3 := by
  have h1 : (3 : ℝ) ^ (0.56 : ℝ) < 15 / 8 :=
    (rpow_exponent_lt_iff 3 (15 / 8) (by norm_num) (by norm_num)).mpr
      (by norm_num)
  have h2 : (25 / 16 : ℝ) < (3 : ℝ) ^ (0.56 : ℝ) :=
    (lt_rpow_exponent_iff 3 (25 / 16) (by norm_num) (by norm_num)).mpr
      (by norm_num)
  have hv1 : (1.6 : ℝ) * (3 : ℝ) ^ (0.56 : ℝ) < 3 := by linarith
  have hv2 : (5 / 2 : ℝ) < 1.6 * (3 : ℝ) ^ (0.56 : ℝ) := by linarith
  have hcast : ((3 : ℕ) : ℝ) = (3 : ℝ) := by norm_num
  have hclamp : (1.0 : ℝ) * max 2 (min 100 (1.6 * ((3 : ℕ) : ℝ) ^ (0.56 : ℝ)))
      = 1.6 * (3 : ℝ) ^ (0.56 : ℝ) := by
    rw [hcast, min_eq_right (by linarith), max_eq_right (by linarith)]
    norm_num
  have hfloor : embedding_dim 3 = 2 := by
    rw [embedding_dim, hclamp, Int.floor_eq_iff]
    constructor
    · push_cast; linarith
    · push_cast; linarith
  have hround : specRoundWidth 3 = 3 := by
    rw [specRoundWidth, hclamp, round_eq, Int.floor_eq_iff]
    constructor
    · push_cast; linarith
    · push_cast; linarith
  exact ⟨hfloor, hround, by rw [hfloor, hround]; decide⟩

/-- C1 (amended): the per-column width is the truncation (floor), not
the rounding, of `size_factor * clamp(1.6 * c^0.56, min=2, max=100)`
with `size_factor = 1.0`: cardinality 1 yields the floor value 2, any
cardinality with `1.6 * c^0.56 > 100` yields the cap 100, and every
width equals the truncated formula and lies in `[2, 100]`. -/
theorem embedding_dim_trunc_formula :
    embedding_dim 1 = 2 ∧
    (∀ c : ℕ, (100 : ℝ) < 1.6 * (c : ℝ) ^ (0.56 : ℝ) →
      embedding_dim c = 100) ∧
    (∀ c : ℕ, embedding_dim c = specTruncWidth c ∧
      2 ≤ embedding_dim c ∧ embedding_dim c ≤ 100) := by
  refine ⟨?_, ?_, ?_⟩
  · rw [embedding_dim, Nat.cast_one, Real.one_rpow,
      min_eq_right (by norm_num : (1.6 : ℝ) * 1 ≤ 100),
      max_eq_left (by norm_num : (1.6 : ℝ) * 1 ≤ 2),
      show (1.0 : ℝ) * 2 = ((2 : ℤ) : ℝ) by norm_num, Int.floor_intCast]
  · intro c hc
    rw [embedding_dim, min_eq_left (le_of_lt hc),
      max_eq_right (by norm_num : (2 : ℝ) ≤ 100),
      show (1.0 : ℝ) * 100 = ((100 : ℤ) : ℝ) by norm_num,
      Int.floor_intCast]
  · intro c
    refine ⟨rfl, ?_, ?_⟩
    · rw [embedding_dim, Int.le_floor]
      have h2 : (2 : ℝ) ≤ max 2 (min 100 (1.6 * (c : ℝ) ^ (0.56 : ℝ))) :=
        le_max_left _ _
      push_cast
      linarith
    · rw [embedding_dim]
      have hle : (1.0 : ℝ) * max 2 (min 100 (1.6 * (c : ℝ) ^ (0.56 : ℝ)))
          ≤ 100 := by
        have hm : max (2 : ℝ) (min 100 (1.6 * (c : ℝ) ^ (0.56 : ℝ))) ≤ 100 :=
          max_le (by norm_num) (min_le_left _ _)
        linarith
      calc ⌊(1.0 : ℝ) * max 2 (min 100 (1.6 * (c : ℝ) ^ (0.56 : ℝ)))⌋
          ≤ ⌊((100 : ℤ) : ℝ)⌋ := Int.floor_le_floor (by push_cast; linarith)
        _ = 100 := Int.floor_intCast _

/-- Witness for the amended C1: cardinality 2048 exceeds the cap
threshold (`1.6 * 2048^0.56 > 100`) and receives width exactly 100. -/
theorem embedding_dim_trunc_formula_witness :
    (100 : ℝ) < 1.6 * ((2048 : ℕ) : ℝ) ^ (0.56 : ℝ) ∧
      embedding_dim 2048 = 100 := by
  have hx : (125 / 2 : ℝ) < (2048 : ℝ) ^ (0.56 : ℝ) :=
    (lt_rpow_exponent_iff 2048 (125 / 2) (by norm_num) (by norm_num)).mpr
      (by norm_num)
  have hcap : (100 : ℝ) < 1.6 * ((2048 : ℕ) : ℝ) ^ (0.56 : ℝ) := by
    have hcast : ((2048 : ℕ) : ℝ) = (2048 : ℝ) := by norm_num
    rw [hcast]; linarith
  exact ⟨hcap, embedding_dim_trunc_formula.2.1 2048 hcap⟩

end CategoricalMLP
